import Mathlib

/-!
# Kestrel serial telemetry ingestion — verification development

A shallow embedding of the core of the `kestrel` repository: the typed
metric value codec (`crates/metric/src/value.rs`), the packet parser and
worker loop of the serial ingestion engine (`crates/serial/src/lib.rs`),
and the hierarchical metric name parser
(`src/serial/metric/name.rs`).

Bytes are modelled as `Nat` (each standing for a `u8`, i.e. `< 256`);
machine integers are decoded into `Nat`/`Int`; IEEE-754 floats are
modelled by their bit patterns (`Nat`), which is exactly the information
the codec manipulates: the code only reinterprets little-endian bytes as
floats (`from_le_bytes`) and never computes with them.
-/

/-- Little-endian interpretation of a byte list, as in
`<$ty>::from_le_bytes(arr)` for an exact-width array. -/
def fromLeBytes (bytes : List Nat) : Nat :=
  bytes.foldr (fun b acc => b + 256 * acc) 0

/-- Two's-complement reading of an `n`-bit value, as in
`<iN>::from_le_bytes`: values at or above `2^(n-1)` wrap to negatives. -/
def toSigned (n : Nat) (v : Nat) : Int :=
  if v < 2 ^ (n - 1) then (v : Int) else (v : Int) - 2 ^ n

/-- `MetricValueError` of `crates/metric/src/value.rs`. -/
inductive MetricValueError where
  | BadLength (expected : Nat) (got : Nat)
deriving DecidableEq, Repr

/-- `OneValue` of `crates/metric/src/value.rs`; floats carried as bit
patterns. -/
inductive OneValue where
  | U8 (v : Nat)
  | U16 (v : Nat)
  | U32 (v : Nat)
  | U64 (v : Nat)
  | I8 (v : Int)
  | I16 (v : Int)
  | I32 (v : Int)
  | I64 (v : Int)
  | Bool (v : Bool)
  | F32 (bits : Nat)
  | F64 (bits : Nat)
deriving DecidableEq, Repr

/-- `ManyValues` of `crates/metric/src/value.rs`. -/
inductive ManyValues where
  | U8 (v : List Nat)
  | U16 (v : List Nat)
  | U32 (v : List Nat)
  | U64 (v : List Nat)
  | I8 (v : List Int)
  | I16 (v : List Int)
  | I32 (v : List Int)
  | I64 (v : List Int)
  | Bool (v : List Bool)
  | F32 (bits : List Nat)
  | F64 (bits : List Nat)
deriving DecidableEq, Repr

/-- `MetricValue` of `crates/metric/src/value.rs`. -/
inductive MetricValue where
  | One (v : OneValue)
  | Many (v : ManyValues)
  | Unknown (ty : String) (raw : List Nat)
deriving DecidableEq, Repr

/-- The scalar decode of the `metric!` macro:
`$bytes.try_into().map_err(|_| BadLength{expected, got}).map(from_le_bytes)`
— `try_into` to `[u8; w]` succeeds exactly when the slice has length `w`. -/
def decodeExact {α : Type} (w : Nat) (g : List Nat → α) (bytes : List Nat) :
    Except MetricValueError α :=
  if bytes.length = w then .ok (g bytes)
  else .error (.BadLength w bytes.length)

/-- `slice::chunks(w)`: windows of `w` elements, the last possibly
shorter; no windows for an empty slice. -/
def chunkList (w : Nat) : List Nat → List (List Nat)
  | [] => []
  | x :: xs => (x :: xs.take (w - 1)) :: chunkList w (xs.drop (w - 1))
termination_by l => l.length
decreasing_by simp [List.length_drop]; omega

/-- `Iterator::collect::<Result<Box<[_]>, _>>()`: first error wins,
otherwise the list of successes. -/
def collectExcept {ε α : Type} : List (Except ε α) → Except ε (List α)
  | [] => .ok []
  | .error e :: _ => .error e
  | .ok a :: rest => (collectExcept rest).map (a :: ·)

/-- The array decode of the `metric!` macro:
`bytes.chunks(size_of::<T>()).map(|w| decode w).collect::<Result<_,_>>()`. -/
def decodeChunks {α : Type} (w : Nat) (dec : List Nat → Except MetricValueError α)
    (bytes : List Nat) : Except MetricValueError (List α) :=
  collectExcept ((chunkList w bytes).map dec)

/-- Unsigned scalar decode (also used for float bit patterns): width `w`
little-endian. -/
def decodeU (w : Nat) : List Nat → Except MetricValueError Nat :=
  decodeExact w fromLeBytes

/-- Signed scalar decode: width `w` little-endian, two's complement. -/
def decodeI (w : Nat) : List Nat → Except MetricValueError Int :=
  decodeExact w (fun b => toSigned (8 * w) (fromLeBytes b))

/-- `bool` decode: `metric!(bytes as u8).map(|byte| byte != 0)`. -/
def decodeB (bytes : List Nat) : Except MetricValueError Bool :=
  (decodeU 1 bytes).map (fun b => b != 0)

/-- `MetricValue::from_bytes` of `crates/metric/src/value.rs`: dispatch
on the type tag; unrecognized tags fall through to `Unknown`. -/
def MetricValue.from_bytes (ty : String) (bytes : List Nat) :
    Except MetricValueError MetricValue :=
  match ty with
  | "u8" => (decodeU 1 bytes).map (fun v => .One (.U8 v))
  | "[u8]" => (decodeChunks 1 (decodeU 1) bytes).map (fun l => .Many (.U8 l))
  | "u16" => (decodeU 2 bytes).map (fun v => .One (.U16 v))
  | "[u16]" => (decodeChunks 2 (decodeU 2) bytes).map (fun l => .Many (.U16 l))
  | "u32" => (decodeU 4 bytes).map (fun v => .One (.U32 v))
  | "[u32]" => (decodeChunks 4 (decodeU 4) bytes).map (fun l => .Many (.U32 l))
  | "u64" => (decodeU 8 bytes).map (fun v => .One (.U64 v))
  | "[u64]" => (decodeChunks 8 (decodeU 8) bytes).map (fun l => .Many (.U64 l))
  | "i8" => (decodeI 1 bytes).map (fun v => .One (.I8 v))
  | "[i8]" => (decodeChunks 1 (decodeI 1) bytes).map (fun l => .Many (.I8 l))
  | "i16" => (decodeI 2 bytes).map (fun v => .One (.I16 v))
  | "[i16]" => (decodeChunks 2 (decodeI 2) bytes).map (fun l => .Many (.I16 l))
  | "i32" => (decodeI 4 bytes).map (fun v => .One (.I32 v))
  | "[i32]" => (decodeChunks 4 (decodeI 4) bytes).map (fun l => .Many (.I32 l))
  | "i64" => (decodeI 8 bytes).map (fun v => .One (.I64 v))
  | "[i64]" => (decodeChunks 8 (decodeI 8) bytes).map (fun l => .Many (.I64 l))
  | "bool" => (decodeB bytes).map (fun v => .One (.Bool v))
  | "[bool]" => (decodeChunks 1 decodeB bytes).map (fun l => .Many (.Bool l))
  | "f32" => (decodeU 4 bytes).map (fun v => .One (.F32 v))
  | "[f32]" => (decodeChunks 4 (decodeU 4) bytes).map (fun l => .Many (.F32 l))
  | "f64" => (decodeU 8 bytes).map (fun v => .One (.F64 v))
  | "[f64]" => (decodeChunks 8 (decodeU 8) bytes).map (fun l => .Many (.F64 l))
  | _ => .ok (.Unknown ty bytes)

/-- The tag component of `MetricValue::ty_value`, i.e. `MetricValue::ty`. -/
def MetricValue.ty : MetricValue → String
  | .One (.U8 _) => "u8"
  | .One (.U16 _) => "u16"
  | .One (.U32 _) => "u32"
  | .One (.U64 _) => "u64"
  | .One (.I8 _) => "i8"
  | .One (.I16 _) => "i16"
  | .One (.I32 _) => "i32"
  | .One (.I64 _) => "i64"
  | .One (.Bool _) => "bool"
  | .One (.F32 _) => "f32"
  | .One (.F64 _) => "f64"
  | .Many (.U8 _) => "[u8]"
  | .Many (.U16 _) => "[u16]"
  | .Many (.U32 _) => "[u32]"
  | .Many (.U64 _) => "[u64]"
  | .Many (.I8 _) => "[i8]"
  | .Many (.I16 _) => "[i16]"
  | .Many (.I32 _) => "[i32]"
  | .Many (.I64 _) => "[i64]"
  | .Many (.Bool _) => "[bool]"
  | .Many (.F32 _) => "[f32]"
  | .Many (.F64 _) => "[f64]"
  | .Unknown t _ => t

/-! ## Codec lemmas -/

theorem decodeExact_ok_iff {α : Type} (w : Nat) (g : List Nat → α) (bytes : List Nat) :
    (∃ v, decodeExact w g bytes = .ok v) ↔ bytes.length = w := by
  unfold decodeExact
  split <;> simp_all

theorem exceptMap_ok_iff {ε α β : Type} (f : α → β) (e : Except ε α) :
    (∃ v, Except.map f e = .ok v) ↔ ∃ a, e = .ok a := by
  cases e <;> simp [Except.map]

theorem exceptMap_error {ε α β : Type} (f : α → β) (e : ε) :
    Except.map f (.error e : Except ε α) = .error e := rfl

theorem collectExcept_ok_iff {ε α : Type} (l : List (Except ε α)) :
    (∃ l', collectExcept l = .ok l') ↔ ∀ e ∈ l, ∃ a, e = .ok a := by
  induction l with
  | nil => simp [collectExcept]
  | cons e rest ih =>
    cases e with
    | error err => simp [collectExcept]
    | ok a =>
      simp only [collectExcept, exceptMap_ok_iff, ih, List.mem_cons]
      constructor
      · rintro h x (rfl | hx)
        · exact ⟨a, rfl⟩
        · exact h x hx
      · intro h x hx
        exact h x (Or.inr hx)

theorem chunkList_length_iff (w : Nat) (hw : 0 < w) (bytes : List Nat) :
    (∀ c ∈ chunkList w bytes, c.length = w) ↔ w ∣ bytes.length := by
  induction bytes using chunkList.induct w with
  | case1 => simp [chunkList]
  | case2 x xs ih =>
    rw [chunkList]
    simp only [List.mem_cons, forall_eq_or_imp, List.length_cons, List.length_take,
      List.length_drop] at ih ⊢
    constructor
    · rintro ⟨hhead, hrec⟩
      have hdvd := ih.mp hrec
      have harith : xs.length + 1 = (xs.length - (w - 1)) + w := by omega
      rw [harith]
      exact Nat.dvd_add hdvd (dvd_refl w)
    · intro hdvd
      by_cases hcase : w - 1 ≤ xs.length
      · refine ⟨by omega, ih.mpr ?_⟩
        have h1 : w ∣ (xs.length + 1) - w := Nat.dvd_sub' hdvd (dvd_refl w)
        have h2 : (xs.length + 1) - w = xs.length - (w - 1) := by omega
        rwa [h2] at h1
      · exfalso
        have := Nat.le_of_dvd (by omega) hdvd
        omega

theorem decodeChunks_ok_iff {α : Type} (w : Nat) (hw : 0 < w)
    (dec : List Nat → Except MetricValueError α)
    (hdec : ∀ c, (∃ v, dec c = .ok v) ↔ c.length = w) (bytes : List Nat) :
    (∃ l, decodeChunks w dec bytes = .ok l) ↔ w ∣ bytes.length := by
  unfold decodeChunks
  rw [collectExcept_ok_iff, ← chunkList_length_iff w hw bytes]
  constructor
  · intro h c hc
    exact (hdec c).mp (h (dec c) (List.mem_map_of_mem dec hc))
  · intro h e he
    obtain ⟨c, hc, rfl⟩ := List.mem_map.mp he
    exact (hdec c).mpr (h c hc)

theorem decodeU_ok_iff (w : Nat) (c : List Nat) :
    (∃ v, decodeU w c = .ok v) ↔ c.length = w :=
  decodeExact_ok_iff w fromLeBytes c

theorem decodeI_ok_iff (w : Nat) (c : List Nat) :
    (∃ v, decodeI w c = .ok v) ↔ c.length = w :=
  decodeExact_ok_iff w _ c

theorem decodeB_ok_iff (c : List Nat) :
    (∃ v, decodeB c = .ok v) ↔ c.length = 1 := by
  unfold decodeB
  rw [exceptMap_ok_iff]
  exact decodeU_ok_iff 1 c

theorem scalar_ok {α : Type} (w : Nat) (g : List Nat → α) (f : α → MetricValue)
    (bytes : List Nat) (h : bytes.length = w) :
    ((decodeExact w g bytes).map f) = .ok (f (g bytes)) := by
  simp [decodeExact, h, Except.map]

theorem scalar_err {α : Type} (w : Nat) (g : List Nat → α) (f : α → MetricValue)
    (bytes : List Nat) (h : bytes.length ≠ w) :
    ((decodeExact w g bytes).map f) = .error (.BadLength w bytes.length) := by
  simp [decodeExact, h, Except.map]

theorem array_map_ok_iff {α : Type} (w : Nat) (hw : 0 < w)
    (dec : List Nat → Except MetricValueError α)
    (hdec : ∀ c, (∃ v, dec c = .ok v) ↔ c.length = w)
    (f : List α → MetricValue) (bytes : List Nat) :
    (∃ v, (decodeChunks w dec bytes).map f = .ok v) ↔ w ∣ bytes.length := by
  rw [exceptMap_ok_iff]
  exact decodeChunks_ok_iff w hw dec hdec bytes

/-- The recognized scalar tags and their byte widths (`size_of`), from the
match arms of `MetricValue::from_bytes`. -/
def scalarTagSizes : List (String × Nat) :=
  [("u8", 1), ("u16", 2), ("u32", 4), ("u64", 8),
   ("i8", 1), ("i16", 2), ("i32", 4), ("i64", 8),
   ("bool", 1), ("f32", 4), ("f64", 8)]

/-- C1: for every recognized scalar tag `t` of width `s`,
`MetricValue::from_bytes(t, bytes)` succeeds iff `bytes.len() = s`, failing
with `BadLength{expected: s, got: bytes.len()}` otherwise; and for the
array tag `"[t]"` it succeeds iff `s` divides `bytes.len()` (a trailing
partial chunk is a length failure). -/
theorem from_bytes_length_invariant (t : String) (s : Nat) (bytes : List Nat)
    (h : (t, s) ∈ scalarTagSizes) :
    (bytes.length = s → ∃ v, MetricValue.from_bytes t bytes = .ok v)
    ∧ (bytes.length ≠ s → MetricValue.from_bytes t bytes = .error (.BadLength s bytes.length))
    ∧ ((∃ v, MetricValue.from_bytes ("[" ++ t ++ "]") bytes = .ok v) ↔ s ∣ bytes.length) := by
  fin_cases h
  case _ =>  -- u8
    exact ⟨fun hl => ⟨_, scalar_ok 1 _ _ bytes hl⟩, fun hl => scalar_err 1 _ _ bytes hl,
      array_map_ok_iff 1 (by omega) _ (decodeU_ok_iff 1) _ bytes⟩
  case _ =>  -- u16
    exact ⟨fun hl => ⟨_, scalar_ok 2 _ _ bytes hl⟩, fun hl => scalar_err 2 _ _ bytes hl,
      array_map_ok_iff 2 (by omega) _ (decodeU_ok_iff 2) _ bytes⟩
  case _ =>  -- u32
    exact ⟨fun hl => ⟨_, scalar_ok 4 _ _ bytes hl⟩, fun hl => scalar_err 4 _ _ bytes hl,
      array_map_ok_iff 4 (by omega) _ (decodeU_ok_iff 4) _ bytes⟩
  case _ =>  -- u64
    exact ⟨fun hl => ⟨_, scalar_ok 8 _ _ bytes hl⟩, fun hl => scalar_err 8 _ _ bytes hl,
      array_map_ok_iff 8 (by omega) _ (decodeU_ok_iff 8) _ bytes⟩
  case _ =>  -- i8
    exact ⟨fun hl => ⟨_, scalar_ok 1 _ _ bytes hl⟩, fun hl => scalar_err 1 _ _ bytes hl,
      array_map_ok_iff 1 (by omega) _ (decodeI_ok_iff 1) _ bytes⟩
  case _ =>  -- i16
    exact ⟨fun hl => ⟨_, scalar_ok 2 _ _ bytes hl⟩, fun hl => scalar_err 2 _ _ bytes hl,
      array_map_ok_iff 2 (by omega) _ (decodeI_ok_iff 2) _ bytes⟩
  case _ =>  -- i32
    exact ⟨fun hl => ⟨_, scalar_ok 4 _ _ bytes hl⟩, fun hl => scalar_err 4 _ _ bytes hl,
      array_map_ok_iff 4 (by omega) _ (decodeI_ok_iff 4) _ bytes⟩
  case _ =>  -- i64
    exact ⟨fun hl => ⟨_, scalar_ok 8 _ _ bytes hl⟩, fun hl => scalar_err 8 _ _ bytes hl,
      array_map_ok_iff 8 (by omega) _ (decodeI_ok_iff 8) _ bytes⟩
  case _ =>  -- bool
    refine ⟨fun hl => ?_, fun hl => ?_, ?_⟩
    · simp [MetricValue.from_bytes, decodeB, decodeU, decodeExact, hl, Except.map]
    · simp [MetricValue.from_bytes, decodeB, decodeU, decodeExact, hl, Except.map]
    · exact array_map_ok_iff 1 (by omega) _ decodeB_ok_iff _ bytes
  case _ =>  -- f32
    exact ⟨fun hl => ⟨_, scalar_ok 4 _ _ bytes hl⟩, fun hl => scalar_err 4 _ _ bytes hl,
      array_map_ok_iff 4 (by omega) _ (decodeU_ok_iff 4) _ bytes⟩
  case _ =>  -- f64
    exact ⟨fun hl => ⟨_, scalar_ok 8 _ _ bytes hl⟩, fun hl => scalar_err 8 _ _ bytes hl,
      array_map_ok_iff 8 (by omega) _ (decodeU_ok_iff 8) _ bytes⟩

/-- Witness for C1 at `t = "u16"`, `s = 2`, `bytes = [1, 2, 3]`. -/
theorem from_bytes_length_invariant_witness :
    (("u16", 2) ∈ scalarTagSizes)
    ∧ (([1, 2, 3] : List Nat).length = 2 → ∃ v, MetricValue.from_bytes "u16" [1, 2, 3] = .ok v)
    ∧ (([1, 2, 3] : List Nat).length ≠ 2 →
        MetricValue.from_bytes "u16" [1, 2, 3] = .error (.BadLength 2 3))
    ∧ ((∃ v, MetricValue.from_bytes ("[" ++ "u16" ++ "]") [1, 2, 3] = .ok v) ↔
        2 ∣ ([1, 2, 3] : List Nat).length) :=
  ⟨by decide, (from_bytes_length_invariant "u16" 2 [1, 2, 3] (by decide)).1,
    (from_bytes_length_invariant "u16" 2 [1, 2, 3] (by decide)).2.1,
    (from_bytes_length_invariant "u16" 2 [1, 2, 3] (by decide)).2.2⟩

/-- All 22 recognized type tags: the match arms of `MetricValue::from_bytes`
other than the `Unknown` fallback. -/
def recognizedTags : List String :=
  ["u8", "[u8]", "u16", "[u16]", "u32", "[u32]", "u64", "[u64]",
   "i8", "[i8]", "i16", "[i16]", "i32", "[i32]", "i64", "[i64]",
   "bool", "[bool]", "f32", "[f32]", "f64", "[f64]"]

/-- C3: for any tag outside the recognized set and any byte slice
(including the empty one), `MetricValue::from_bytes` returns
`Ok(Unknown(tag, bytes))`, preserving tag and bytes verbatim — the
fallback never fails. -/
theorem from_bytes_unknown_total (ty : String) (bytes : List Nat)
    (h : ty ∉ recognizedTags) :
    MetricValue.from_bytes ty bytes = .ok (.Unknown ty bytes) := by
  unfold MetricValue.from_bytes
  split
  all_goals first
    | rfl
    | (exfalso; simp_all [recognizedTags])

/-- Witness for C3 at `tag = "v3"`, `bytes = [1, 2, 3]` (and the empty
slice via the same tag). -/
theorem from_bytes_unknown_total_witness :
    ("v3" ∉ recognizedTags)
    ∧ MetricValue.from_bytes "v3" [1, 2, 3] = .ok (.Unknown "v3" [1, 2, 3])
    ∧ MetricValue.from_bytes "v3" [] = .ok (.Unknown "v3" []) :=
  ⟨by decide, from_bytes_unknown_total "v3" [1, 2, 3] (by decide),
    from_bytes_unknown_total "v3" [] (by decide)⟩

theorem except_map_ok_elim {ε α β : Type} {f : α → β} {e : Except ε α} {v : β}
    (h : Except.map f e = .ok v) : ∃ a, e = .ok a ∧ v = f a := by
  cases e <;> simp_all [Except.map]

/-- C10: whenever `MetricValue::from_bytes(t, b)` returns `Ok(v)`, the
reported tag `v.ty()` is exactly `t`, for recognized scalar tags,
recognized array tags, and unknown tags alike. -/
theorem from_bytes_preserves_ty (t : String) (b : List Nat) (v : MetricValue)
    (h : MetricValue.from_bytes t b = .ok v) : v.ty = t := by
  unfold MetricValue.from_bytes at h
  split at h
  all_goals first
    | (obtain ⟨a, -, rfl⟩ := except_map_ok_elim h; rfl)
    | (cases h; rfl)

/-- Witness for C10 at `t = "u16"`, `b = [1, 2]`. -/
theorem from_bytes_preserves_ty_witness :
    (MetricValue.One (.U16 513)).ty = "u16" :=
  from_bytes_preserves_ty "u16" [1, 2] (.One (.U16 513)) rfl

/-! ## Kind introspection accessors (`MetricValue` impl block) -/

/-- Bit-pattern model of `f64::from(f32)`: the IEEE-754 single-to-double
conversion, which is exact on all finite values (subnormals are
renormalized) and maps infinities/NaNs to the corresponding double with
the payload shifted into the wider mantissa. -/
def f32ToF64Bits (b : Nat) : Nat :=
  let sign := b / 2 ^ 31 % 2
  let exp := b / 2 ^ 23 % 2 ^ 8
  let man := b % 2 ^ 23
  if exp = 255 then
    sign * 2 ^ 63 + 2047 * 2 ^ 52 + man * 2 ^ 29
  else if exp = 0 then
    if man = 0 then sign * 2 ^ 63
    else
      let k := Nat.log2 man
      sign * 2 ^ 63 + (k + 874) * 2 ^ 52 + (man - 2 ^ k) * 2 ^ (52 - k)
  else
    sign * 2 ^ 63 + (exp + 896) * 2 ^ 52 + man * 2 ^ 29

/-- `MetricValue::as_bool`. -/
def MetricValue.as_bool : MetricValue → Option Bool
  | .One (.Bool v) => some v
  | _ => none

/-- `MetricValue::as_bool_iter` (the lazily yielded sequence, as a list). -/
def MetricValue.as_bool_iter : MetricValue → Option (List Bool)
  | .Many (.Bool v) => some v
  | _ => none

/-- `MetricValue::as_unsigned_integer`: widens any unsigned scalar to
`u64` (`u64::from` is the identity on the modelled `Nat` value). -/
def MetricValue.as_unsigned_integer : MetricValue → Option Nat
  | .One (.U8 v) => some v
  | .One (.U16 v) => some v
  | .One (.U32 v) => some v
  | .One (.U64 v) => some v
  | _ => none

/-- `MetricValue::as_unsigned_integer_iter`. -/
def MetricValue.as_unsigned_integer_iter : MetricValue → Option (List Nat)
  | .Many (.U8 v) => some v
  | .Many (.U16 v) => some v
  | .Many (.U32 v) => some v
  | .Many (.U64 v) => some v
  | _ => none

/-- `MetricValue::as_signed_integer`: widens any signed scalar to `i64`
(`i64::from` is the identity on the modelled `Int` value). -/
def MetricValue.as_signed_integer : MetricValue → Option Int
  | .One (.I8 v) => some v
  | .One (.I16 v) => some v
  | .One (.I32 v) => some v
  | .One (.I64 v) => some v
  | _ => none

/-- `MetricValue::as_signed_integer_iter`. -/
def MetricValue.as_signed_integer_iter : MetricValue → Option (List Int)
  | .Many (.I8 v) => some v
  | .Many (.I16 v) => some v
  | .Many (.I32 v) => some v
  | .Many (.I64 v) => some v
  | _ => none

/-- `MetricValue::as_float`: widens `f32` to `f64` via `f64::from`,
modelled on bit patterns. -/
def MetricValue.as_float : MetricValue → Option Nat
  | .One (.F32 bits) => some (f32ToF64Bits bits)
  | .One (.F64 bits) => some bits
  | _ => none

/-- `MetricValue::as_float_iter`. -/
def MetricValue.as_float_iter : MetricValue → Option (List Nat)
  | .Many (.F32 bits) => some (bits.map f32ToF64Bits)
  | .Many (.F64 bits) => some bits
  | _ => none

/-- How many of the four scalar accessors answer `Some` on a value. -/
def MetricValue.scalarSomeCount (v : MetricValue) : Nat :=
  (if v.as_bool.isSome then 1 else 0)
  + (if v.as_unsigned_integer.isSome then 1 else 0)
  + (if v.as_signed_integer.isSome then 1 else 0)
  + (if v.as_float.isSome then 1 else 0)

/-- How many of the four array accessors answer `Some` on a value. -/
def MetricValue.arraySomeCount (v : MetricValue) : Nat :=
  (if v.as_bool_iter.isSome then 1 else 0)
  + (if v.as_unsigned_integer_iter.isSome then 1 else 0)
  + (if v.as_signed_integer_iter.isSome then 1 else 0)
  + (if v.as_float_iter.isSome then 1 else 0)

/-- C9: kind introspection is mutually exclusive: at most one scalar
accessor and at most one array accessor answer `Some`; an `Unknown` value
answers `None` on all eight; and no value answers `Some` to both a scalar
accessor and an array accessor. -/
theorem accessors_mutually_exclusive (v : MetricValue) (t : String) (b : List Nat) :
    v.scalarSomeCount ≤ 1
    ∧ v.arraySomeCount ≤ 1
    ∧ (v.scalarSomeCount = 0 ∨ v.arraySomeCount = 0)
    ∧ (MetricValue.Unknown t b).scalarSomeCount = 0
    ∧ (MetricValue.Unknown t b).arraySomeCount = 0 := by
  refine ⟨?_, ?_, ?_, ?_, ?_⟩ <;>
    first
      | rfl
      | (cases v with
          | One o => cases o <;> simp [MetricValue.scalarSomeCount,
              MetricValue.arraySomeCount, MetricValue.as_bool,
              MetricValue.as_unsigned_integer, MetricValue.as_signed_integer,
              MetricValue.as_float, MetricValue.as_bool_iter,
              MetricValue.as_unsigned_integer_iter,
              MetricValue.as_signed_integer_iter, MetricValue.as_float_iter]
          | Many m => cases m <;> simp [MetricValue.scalarSomeCount,
              MetricValue.arraySomeCount, MetricValue.as_bool,
              MetricValue.as_unsigned_integer, MetricValue.as_signed_integer,
              MetricValue.as_float, MetricValue.as_bool_iter,
              MetricValue.as_unsigned_integer_iter,
              MetricValue.as_signed_integer_iter, MetricValue.as_float_iter]
          | Unknown t' b' => simp [MetricValue.scalarSomeCount,
              MetricValue.arraySomeCount, MetricValue.as_bool,
              MetricValue.as_unsigned_integer, MetricValue.as_signed_integer,
              MetricValue.as_float, MetricValue.as_bool_iter,
              MetricValue.as_unsigned_integer_iter,
              MetricValue.as_signed_integer_iter, MetricValue.as_float_iter])

/-! ## Wire encoding and the codec round-trip -/

/-- Modelled from the spec: the device-side encoder is not part of this
repository; the spec fixes the wire byte layout of every multi-byte value
as little-endian (`size_of` bytes per scalar). `natToLeBytes w v` is the
`w`-byte little-endian layout of an unsigned value `v`. -/
def natToLeBytes : Nat → Nat → List Nat
  | 0, _ => []
  | w + 1, v => v % 256 :: natToLeBytes w (v / 256)

/-- Modelled from the spec: `w`-byte little-endian two's-complement
layout of a signed value. -/
def intToLeBytes (w : Nat) (i : Int) : List Nat :=
  natToLeBytes w (i % ((2 : Int) ^ (8 * w))).toNat

theorem length_natToLeBytes (w v : Nat) : (natToLeBytes w v).length = w := by
  induction w generalizing v with
  | zero => rfl
  | succ w ih => simp [natToLeBytes, ih]

theorem fromLe_natToLe (w v : Nat) (h : v < 256 ^ w) :
    fromLeBytes (natToLeBytes w v) = v := by
  induction w generalizing v with
  | zero => simp [pow_zero, Nat.lt_one_iff] at h; simp [natToLeBytes, fromLeBytes, h]
  | succ w ih =>
    have hdiv : v / 256 < 256 ^ w := by
      rw [Nat.div_lt_iff_lt_mul (by omega)]
      calc v < 256 ^ (w + 1) := h
        _ = 256 ^ w * 256 := by rw [pow_succ]
    show v % 256 + 256 * fromLeBytes (natToLeBytes w (v / 256)) = v
    rw [ih (v / 256) hdiv]
    omega

theorem toSigned_emod (n : Nat) (hn : 0 < n) (i : Int)
    (h1 : -((2 : Int) ^ (n - 1)) ≤ i) (h2 : i < (2 : Int) ^ (n - 1)) :
    toSigned n ((i % ((2 : Int) ^ n)).toNat) = i := by
  have hMK : (2 : Int) ^ n = 2 ^ (n - 1) * 2 := by
    rw [← pow_succ]
    congr 1
    omega
  have hK : (0 : Int) < 2 ^ (n - 1) := by positivity
  have hc1 : ((2 ^ (n - 1) : Nat) : Int) = (2 : Int) ^ (n - 1) := by push_cast; ring
  have hc2 : ((2 ^ n : Nat) : Int) = (2 : Int) ^ n := by push_cast; ring
  rcases le_or_lt 0 i with hpos | hneg
  · have hmod : i % ((2 : Int) ^ n) = i := Int.emod_eq_of_lt hpos (by omega)
    rw [hmod]
    unfold toSigned
    split <;> rename_i hcond <;> omega
  · have hshift : (i + 2 ^ n) % ((2 : Int) ^ n) = i % 2 ^ n := by
      have h := Int.add_mul_emod_self_left (a := i) (b := (2 : Int) ^ n) (c := 1)
      rw [mul_one] at h
      exact h
    have hmod : i % ((2 : Int) ^ n) = i + 2 ^ n := by
      rw [← hshift]
      exact Int.emod_eq_of_lt (by omega) (by omega)
    rw [hmod]
    unfold toSigned
    split <;> rename_i hcond <;> omega

theorem decodeU_natToLe (w v : Nat) (h : v < 256 ^ w) :
    decodeU w (natToLeBytes w v) = .ok v := by
  unfold decodeU decodeExact
  rw [length_natToLeBytes, if_pos rfl, fromLe_natToLe w v h]

theorem decodeI_intToLe (w : Nat) (hw : 0 < w) (i : Int)
    (h1 : -((2 : Int) ^ (8 * w - 1)) ≤ i) (h2 : i < (2 : Int) ^ (8 * w - 1)) :
    decodeI w (intToLeBytes w i) = .ok i := by
  unfold decodeI decodeExact intToLeBytes
  rw [length_natToLeBytes, if_pos rfl]
  have hc : ((2 ^ (8 * w) : Nat) : Int) = (2 : Int) ^ (8 * w) := by push_cast; ring
  have h256 : (256 : Nat) ^ w = 2 ^ (8 * w) := by
    rw [Nat.pow_mul]
  have hmodlt : i % ((2 : Int) ^ (8 * w)) < (2 : Int) ^ (8 * w) :=
    Int.emod_lt_of_pos i (by positivity)
  have hmodnn : 0 ≤ i % ((2 : Int) ^ (8 * w)) := Int.emod_nonneg i (by positivity)
  have ht : (i % ((2 : Int) ^ (8 * w))).toNat < 256 ^ w := by
    rw [h256]
    omega
  show Except.ok
      (toSigned (8 * w) (fromLeBytes (natToLeBytes w (i % (2 : Int) ^ (8 * w)).toNat))) =
    Except.ok i
  rw [fromLe_natToLe _ _ ht, toSigned_emod (8 * w) (by omega) i h1 h2]

theorem decodeB_encode (b : Bool) :
    decodeB [if b then 1 else 0] = .ok b := by
  cases b <;> rfl

theorem chunkList_cons_of_length (w : Nat) (hw : 0 < w) (a rest : List Nat)
    (ha : a.length = w) : chunkList w (a ++ rest) = a :: chunkList w rest := by
  cases a with
  | nil => simp at ha; omega
  | cons y ys =>
    rw [List.cons_append, chunkList]
    have hys : ys.length = w - 1 := by simp at ha; omega
    rw [List.take_left' hys, List.drop_left' hys]

theorem decodeChunks_encode {α : Type} (w : Nat) (hw : 0 < w)
    (dec : List Nat → Except MetricValueError α) (enc : α → List Nat)
    (l : List α) (hlen : ∀ x ∈ l, (enc x).length = w)
    (hdec : ∀ x ∈ l, dec (enc x) = .ok x) :
    decodeChunks w dec (l.flatMap enc) = .ok l := by
  induction l with
  | nil => simp [decodeChunks, chunkList, collectExcept]
  | cons x xs ih =>
    unfold decodeChunks
    rw [List.flatMap_cons,
      chunkList_cons_of_length w hw (enc x) (xs.flatMap enc) (hlen x (by simp)),
      List.map_cons, hdec x (by simp)]
    show (collectExcept ((chunkList w (xs.flatMap enc)).map dec)).map (x :: ·) = _
    have ihh := ih (fun y hy => hlen y (by simp [hy])) (fun y hy => hdec y (by simp [hy]))
    unfold decodeChunks at ihh
    rw [ihh]
    rfl

/-- A scalar value within its type's range (the invariant every decoded
value satisfies, and the precondition for encoding). -/
def OneValue.wf : OneValue → Prop
  | .U8 v => v < 2 ^ 8
  | .U16 v => v < 2 ^ 16
  | .U32 v => v < 2 ^ 32
  | .U64 v => v < 2 ^ 64
  | .I8 v => -((2 : Int) ^ 7) ≤ v ∧ v < 2 ^ 7
  | .I16 v => -((2 : Int) ^ 15) ≤ v ∧ v < 2 ^ 15
  | .I32 v => -((2 : Int) ^ 31) ≤ v ∧ v < 2 ^ 31
  | .I64 v => -((2 : Int) ^ 63) ≤ v ∧ v < 2 ^ 63
  | .Bool _ => True
  | .F32 b => b < 2 ^ 32
  | .F64 b => b < 2 ^ 64

/-- Every element of an array value within its type's range. -/
def ManyValues.wf : ManyValues → Prop
  | .U8 l => ∀ x ∈ l, x < 2 ^ 8
  | .U16 l => ∀ x ∈ l, x < 2 ^ 16
  | .U32 l => ∀ x ∈ l, x < 2 ^ 32
  | .U64 l => ∀ x ∈ l, x < 2 ^ 64
  | .I8 l => ∀ x ∈ l, -((2 : Int) ^ 7) ≤ x ∧ x < 2 ^ 7
  | .I16 l => ∀ x ∈ l, -((2 : Int) ^ 15) ≤ x ∧ x < 2 ^ 15
  | .I32 l => ∀ x ∈ l, -((2 : Int) ^ 31) ≤ x ∧ x < 2 ^ 31
  | .I64 l => ∀ x ∈ l, -((2 : Int) ^ 63) ≤ x ∧ x < 2 ^ 63
  | .Bool _ => True
  | .F32 l => ∀ x ∈ l, x < 2 ^ 32
  | .F64 l => ∀ x ∈ l, x < 2 ^ 64

def MetricValue.wf : MetricValue → Prop
  | .One o => o.wf
  | .Many m => m.wf
  | .Unknown _ _ => True

/-- A value carrying one of the 22 recognized type tags (not `Unknown`). -/
def MetricValue.known : MetricValue → Prop
  | .Unknown _ _ => False
  | _ => True

/-- Modelled from the spec: the wire byte layout of a scalar value —
little-endian, `size_of` bytes; `bool` as one byte, `false ↦ 0`,
`true ↦ 1`; floats by their bit patterns. -/
def OneValue.encode : OneValue → List Nat
  | .U8 v => natToLeBytes 1 v
  | .U16 v => natToLeBytes 2 v
  | .U32 v => natToLeBytes 4 v
  | .U64 v => natToLeBytes 8 v
  | .I8 v => intToLeBytes 1 v
  | .I16 v => intToLeBytes 2 v
  | .I32 v => intToLeBytes 4 v
  | .I64 v => intToLeBytes 8 v
  | .Bool b => [if b then 1 else 0]
  | .F32 bits => natToLeBytes 4 bits
  | .F64 bits => natToLeBytes 8 bits

/-- Modelled from the spec: the wire byte layout of an array value — the
concatenation of the little-endian layouts of its elements. -/
def ManyValues.encode : ManyValues → List Nat
  | .U8 l => l.flatMap (natToLeBytes 1)
  | .U16 l => l.flatMap (natToLeBytes 2)
  | .U32 l => l.flatMap (natToLeBytes 4)
  | .U64 l => l.flatMap (natToLeBytes 8)
  | .I8 l => l.flatMap (intToLeBytes 1)
  | .I16 l => l.flatMap (intToLeBytes 2)
  | .I32 l => l.flatMap (intToLeBytes 4)
  | .I64 l => l.flatMap (intToLeBytes 8)
  | .Bool l => l.flatMap (fun b => [if b then 1 else 0])
  | .F32 l => l.flatMap (natToLeBytes 4)
  | .F64 l => l.flatMap (natToLeBytes 8)

def MetricValue.encode : MetricValue → List Nat
  | .One o => o.encode
  | .Many m => m.encode
  | .Unknown _ raw => raw

/-- C8: round-trip — encoding any in-range typed value of a recognized
scalar or array type into its little-endian wire layout and decoding it
back under its own type tag yields the original value. -/
theorem from_bytes_roundtrip (v : MetricValue) (h1 : v.wf) (h2 : v.known) :
    MetricValue.from_bytes v.ty v.encode = .ok v := by
  cases v with
  | Unknown t r => exact absurd h2 (by simp [MetricValue.known])
  | One o =>
    cases o with
    | U8 x =>
      show (decodeU 1 (natToLeBytes 1 x)).map (fun y => MetricValue.One (.U8 y)) = _
      rw [decodeU_natToLe 1 x (by norm_num [MetricValue.wf, OneValue.wf] at h1 ⊢; omega)]
      rfl
    | U16 x =>
      show (decodeU 2 (natToLeBytes 2 x)).map (fun y => MetricValue.One (.U16 y)) = _
      rw [decodeU_natToLe 2 x (by norm_num [MetricValue.wf, OneValue.wf] at h1 ⊢; omega)]
      rfl
    | U32 x =>
      show (decodeU 4 (natToLeBytes 4 x)).map (fun y => MetricValue.One (.U32 y)) = _
      rw [decodeU_natToLe 4 x (by norm_num [MetricValue.wf, OneValue.wf] at h1 ⊢; omega)]
      rfl
    | U64 x =>
      show (decodeU 8 (natToLeBytes 8 x)).map (fun y => MetricValue.One (.U64 y)) = _
      rw [decodeU_natToLe 8 x (by norm_num [MetricValue.wf, OneValue.wf] at h1 ⊢; omega)]
      rfl
    | I8 x =>
      show (decodeI 1 (intToLeBytes 1 x)).map (fun y => MetricValue.One (.I8 y)) = _
      rw [decodeI_intToLe 1 (by omega) x
        (by norm_num [MetricValue.wf, OneValue.wf] at h1 ⊢; omega)
        (by norm_num [MetricValue.wf, OneValue.wf] at h1 ⊢; omega)]
      rfl
    | I16 x =>
      show (decodeI 2 (intToLeBytes 2 x)).map (fun y => MetricValue.One (.I16 y)) = _
      rw [decodeI_intToLe 2 (by omega) x
        (by norm_num [MetricValue.wf, OneValue.wf] at h1 ⊢; omega)
        (by norm_num [MetricValue.wf, OneValue.wf] at h1 ⊢; omega)]
      rfl
    | I32 x =>
      show (decodeI 4 (intToLeBytes 4 x)).map (fun y => MetricValue.One (.I32 y)) = _
      rw [decodeI_intToLe 4 (by omega) x
        (by norm_num [MetricValue.wf, OneValue.wf] at h1 ⊢; omega)
        (by norm_num [MetricValue.wf, OneValue.wf] at h1 ⊢; omega)]
      rfl
    | I64 x =>
      show (decodeI 8 (intToLeBytes 8 x)).map (fun y => MetricValue.One (.I64 y)) = _
      rw [decodeI_intToLe 8 (by omega) x
        (by norm_num [MetricValue.wf, OneValue.wf] at h1 ⊢; omega)
        (by norm_num [MetricValue.wf, OneValue.wf] at h1 ⊢; omega)]
      rfl
    | Bool b =>
      show (decodeB [if b then 1 else 0]).map (fun y => MetricValue.One (.Bool y)) = _
      rw [decodeB_encode b]
      rfl
    | F32 x =>
      show (decodeU 4 (natToLeBytes 4 x)).map (fun y => MetricValue.One (.F32 y)) = _
      rw [decodeU_natToLe 4 x (by norm_num [MetricValue.wf, OneValue.wf] at h1 ⊢; omega)]
      rfl
    | F64 x =>
      show (decodeU 8 (natToLeBytes 8 x)).map (fun y => MetricValue.One (.F64 y)) = _
      rw [decodeU_natToLe 8 x (by norm_num [MetricValue.wf, OneValue.wf] at h1 ⊢; omega)]
      rfl
  | Many m =>
    cases m with
    | U8 l =>
      show (decodeChunks 1 (decodeU 1) (l.flatMap (natToLeBytes 1))).map
        (fun y => MetricValue.Many (.U8 y)) = _
      rw [decodeChunks_encode 1 (by omega) _ _ l (fun x _ => length_natToLeBytes 1 x)
        (fun x hx => decodeU_natToLe 1 x (by
          norm_num [MetricValue.wf, ManyValues.wf] at h1
          have := h1 x hx; omega))]
      rfl
    | U16 l =>
      show (decodeChunks 2 (decodeU 2) (l.flatMap (natToLeBytes 2))).map
        (fun y => MetricValue.Many (.U16 y)) = _
      rw [decodeChunks_encode 2 (by omega) _ _ l (fun x _ => length_natToLeBytes 2 x)
        (fun x hx => decodeU_natToLe 2 x (by
          norm_num [MetricValue.wf, ManyValues.wf] at h1
          have := h1 x hx; omega))]
      rfl
    | U32 l =>
      show (decodeChunks 4 (decodeU 4) (l.flatMap (natToLeBytes 4))).map
        (fun y => MetricValue.Many (.U32 y)) = _
      rw [decodeChunks_encode 4 (by omega) _ _ l (fun x _ => length_natToLeBytes 4 x)
        (fun x hx => decodeU_natToLe 4 x (by
          norm_num [MetricValue.wf, ManyValues.wf] at h1
          have := h1 x hx; omega))]
      rfl
    | U64 l =>
      show (decodeChunks 8 (decodeU 8) (l.flatMap (natToLeBytes 8))).map
        (fun y => MetricValue.Many (.U64 y)) = _
      rw [decodeChunks_encode 8 (by omega) _ _ l (fun x _ => length_natToLeBytes 8 x)
        (fun x hx => decodeU_natToLe 8 x (by
          norm_num [MetricValue.wf, ManyValues.wf] at h1
          have := h1 x hx; omega))]
      rfl
    | I8 l =>
      show (decodeChunks 1 (decodeI 1) (l.flatMap (intToLeBytes 1))).map
        (fun y => MetricValue.Many (.I8 y)) = _
      rw [decodeChunks_encode 1 (by omega) (decodeI 1) (intToLeBytes 1) l
        (fun x _ => length_natToLeBytes 1 _)
        (fun x hx => decodeI_intToLe 1 (by omega) x
          (by norm_num [MetricValue.wf, ManyValues.wf] at h1
              have := h1 x hx; omega)
          (by norm_num [MetricValue.wf, ManyValues.wf] at h1
              have := h1 x hx; omega))]
      rfl
    | I16 l =>
      show (decodeChunks 2 (decodeI 2) (l.flatMap (intToLeBytes 2))).map
        (fun y => MetricValue.Many (.I16 y)) = _
      rw [decodeChunks_encode 2 (by omega) (decodeI 2) (intToLeBytes 2) l
        (fun x _ => length_natToLeBytes 2 _)
        (fun x hx => decodeI_intToLe 2 (by omega) x
          (by norm_num [MetricValue.wf, ManyValues.wf] at h1
              have := h1 x hx; omega)
          (by norm_num [MetricValue.wf, ManyValues.wf] at h1
              have := h1 x hx; omega))]
      rfl
    | I32 l =>
      show (decodeChunks 4 (decodeI 4) (l.flatMap (intToLeBytes 4))).map
        (fun y => MetricValue.Many (.I32 y)) = _
      rw [decodeChunks_encode 4 (by omega) (decodeI 4) (intToLeBytes 4) l
        (fun x _ => length_natToLeBytes 4 _)
        (fun x hx => decodeI_intToLe 4 (by omega) x
          (by norm_num [MetricValue.wf, ManyValues.wf] at h1
              have := h1 x hx; omega)
          (by norm_num [MetricValue.wf, ManyValues.wf] at h1
              have := h1 x hx; omega))]
      rfl
    | I64 l =>
      show (decodeChunks 8 (decodeI 8) (l.flatMap (intToLeBytes 8))).map
        (fun y => MetricValue.Many (.I64 y)) = _
      rw [decodeChunks_encode 8 (by omega) (decodeI 8) (intToLeBytes 8) l
        (fun x _ => length_natToLeBytes 8 _)
        (fun x hx => decodeI_intToLe 8 (by omega) x
          (by norm_num [MetricValue.wf, ManyValues.wf] at h1
              have := h1 x hx; omega)
          (by norm_num [MetricValue.wf, ManyValues.wf] at h1
              have := h1 x hx; omega))]
      rfl
    | Bool l =>
      show (decodeChunks 1 decodeB (l.flatMap (fun b => [if b then 1 else 0]))).map
        (fun y => MetricValue.Many (.Bool y)) = _
      rw [decodeChunks_encode 1 (by omega) _ _ l
        (fun b _ => by cases b <;> rfl)
        (fun b _ => decodeB_encode b)]
      rfl
    | F32 l =>
      show (decodeChunks 4 (decodeU 4) (l.flatMap (natToLeBytes 4))).map
        (fun y => MetricValue.Many (.F32 y)) = _
      rw [decodeChunks_encode 4 (by omega) _ _ l (fun x _ => length_natToLeBytes 4 x)
        (fun x hx => decodeU_natToLe 4 x (by
          norm_num [MetricValue.wf, ManyValues.wf] at h1
          have := h1 x hx; omega))]
      rfl
    | F64 l =>
      show (decodeChunks 8 (decodeU 8) (l.flatMap (natToLeBytes 8))).map
        (fun y => MetricValue.Many (.F64 y)) = _
      rw [decodeChunks_encode 8 (by omega) _ _ l (fun x _ => length_natToLeBytes 8 x)
        (fun x hx => decodeU_natToLe 8 x (by
          norm_num [MetricValue.wf, ManyValues.wf] at h1
          have := h1 x hx; omega))]
      rfl

/-- Witness for C8 at the array value `Many(U16([513, 7]))`. -/
theorem from_bytes_roundtrip_witness :
    (MetricValue.Many (.U16 [513, 7])).wf
    ∧ (MetricValue.Many (.U16 [513, 7])).known
    ∧ MetricValue.from_bytes (MetricValue.Many (.U16 [513, 7])).ty
        (MetricValue.Many (.U16 [513, 7])).encode =
      .ok (MetricValue.Many (.U16 [513, 7])) :=
  ⟨by norm_num [MetricValue.wf, ManyValues.wf], trivial,
    from_bytes_roundtrip (MetricValue.Many (.U16 [513, 7]))
      (by norm_num [MetricValue.wf, ManyValues.wf]) trivial⟩

/-! ## Hierarchical metric names (`src/serial/metric/name.rs`)

The interner (`DefaultSymbol`) is modelled by the interned string itself:
interning is injective, so structural equality of symbols coincides with
equality of the strings. -/

/-- `MetricName` of `src/serial/metric/name.rs`: a bare name or a
namespace wrapping a nested name, recursively. -/
inductive MetricName where
  | Namespace (ns : String) (name : MetricName)
  | Name (s : String)
deriving DecidableEq, Repr

/-- `str::split(':')` over the characters: the list of colon-separated
pieces; an empty input yields one empty piece, like Rust's `split`. -/
def splitColon : List Char → List (List Char)
  | [] => [[]]
  | c :: rest =>
    if c = ':' then [] :: splitColon rest
    else
      match splitColon rest with
      | [] => [[c]]
      | p :: ps => (c :: p) :: ps

/-- The `rfold` of `FromStr for MetricName`: fold the leading namespace
pieces (front to back) around the final bare name. -/
def MetricName.ofParts : List String → String → MetricName
  | [], name => .Name name
  | ns :: rest, name => .Namespace ns (MetricName.ofParts rest name)

/-- `impl FromStr for MetricName` (`src/serial/metric/name.rs`): split on
colons, take the last piece as the name (`next_back`), fold the remaining
pieces from the back as namespaces. Total: `Err = Infallible`. -/
def parseMetricName (s : String) : MetricName :=
  let parts := (splitColon s.data).map String.mk
  MetricName.ofParts parts.dropLast (parts.getLastD "")

theorem splitColon_ne_nil (cs : List Char) : splitColon cs ≠ [] := by
  cases cs with
  | nil => simp [splitColon]
  | cons c rest =>
    unfold splitColon
    split
    · simp
    · split <;> simp

theorem splitColon_no_colon (cs : List Char) (h : ':' ∉ cs) :
    splitColon cs = [cs] := by
  induction cs with
  | nil => rfl
  | cons c rest ih =>
    simp only [List.mem_cons] at h
    push_neg at h
    unfold splitColon
    rw [if_neg (fun hc => h.1 hc.symm), ih h.2]

theorem splitColon_append (xs ys : List Char) (h : ':' ∉ xs) :
    splitColon (xs ++ ':' :: ys) = xs :: splitColon ys := by
  induction xs with
  | nil => simp [splitColon]
  | cons c rest ih =>
    simp only [List.mem_cons] at h
    push_neg at h
    rw [List.cons_append]
    have hstep : splitColon (c :: (rest ++ ':' :: ys)) =
        match splitColon (rest ++ ':' :: ys) with
        | [] => [[c]]
        | p :: ps => (c :: p) :: ps := by
      show (if c = ':' then [] :: splitColon (rest ++ ':' :: ys)
          else match splitColon (rest ++ ':' :: ys) with
            | [] => [[c]]
            | p :: ps => (c :: p) :: ps) = _
      rw [if_neg (fun hc => h.1 hc.symm)]
    rw [hstep, ih h.2]

theorem ofParts_cons₂ (x p d : String) (ps : List String) :
    MetricName.ofParts ((x :: p :: ps).dropLast) ((x :: p :: ps).getLastD d) =
      .Namespace x (MetricName.ofParts ((p :: ps).dropLast) ((p :: ps).getLastD d)) := by
  simp [List.dropLast_cons₂, List.getLastD_cons, MetricName.ofParts]

/-- C6: metric-name parsing is total (it is a function on all strings),
splits on colons namespace-first name-last, and is recursive: a
colon-free string is a bare name, a leading `ns:` wraps the parse of the
remainder in a namespace, and `"a:b:c"` parses to namespace `a`
containing namespace `b` containing name `c`. -/
theorem metric_name_parse_total (s ns rest : String)
    (h1 : ':' ∉ s.data) (h2 : ':' ∉ ns.data) :
    parseMetricName s = .Name s
    ∧ parseMetricName (ns ++ ":" ++ rest) = .Namespace ns (parseMetricName rest)
    ∧ parseMetricName "a:b:c" = .Namespace "a" (.Namespace "b" (.Name "c")) := by
  refine ⟨?_, ?_, by decide⟩
  · unfold parseMetricName
    rw [splitColon_no_colon s.data h1]
    rfl
  · unfold parseMetricName
    have hd : (ns ++ ":" ++ rest).data = ns.data ++ ':' :: rest.data := by
      rw [String.data_append, String.data_append]
      simp
    rw [hd, splitColon_append ns.data rest.data h2, List.map_cons]
    obtain ⟨p, ps, hps⟩ : ∃ p ps, (splitColon rest.data).map String.mk = p :: ps := by
      match hsp : splitColon rest.data with
      | [] => exact absurd hsp (splitColon_ne_nil _)
      | q :: qs => exact ⟨String.mk q, qs.map String.mk, by simp [hsp]⟩
    rw [hps, ofParts_cons₂]

/-- Witness for C6 at `s = "flat"`, `ns = "ultrasonic"`, `rest = "distance"`. -/
theorem metric_name_parse_total_witness :
    (':' ∉ ("flat" : String).data) ∧ (':' ∉ ("ultrasonic" : String).data)
    ∧ parseMetricName "flat" = .Name "flat"
    ∧ parseMetricName ("ultrasonic" ++ ":" ++ "distance") =
        .Namespace "ultrasonic" (parseMetricName "distance")
    ∧ parseMetricName "a:b:c" = .Namespace "a" (.Namespace "b" (.Name "c")) :=
  ⟨by decide, by decide,
    (metric_name_parse_total "flat" "ultrasonic" "distance" (by decide) (by decide)).1,
    (metric_name_parse_total "flat" "ultrasonic" "distance" (by decide) (by decide)).2.1,
    (metric_name_parse_total "flat" "ultrasonic" "distance" (by decide) (by decide)).2.2⟩

/-! ## Packet parsing (`crates/serial/src/lib.rs`, `SerialWorker::read_packet`)

`read_packet` runs after COBS unstuffing (`read_cobs`, an IO operation on
the transport, not modelled here) on a fully materialized frame.
`String::from_utf8_lossy` is Rust standard-library code, modelled as an
uninterpreted decoding function `u : List Nat → String` that theorems
quantify over. -/

/-- `TransportError` of the serial worker's error module. -/
inductive TransportError where
  | TimedOut
  | SerialPortDisconnected
  | MalformedCOBS (data : List Nat)
deriving DecidableEq, Repr

/-- `io::ErrorKind`, restricted to the kinds the classifier distinguishes. -/
inductive IOErrorKind where
  | TimedOut
  | PermissionDenied
  | OtherError
deriving DecidableEq, Repr

/-- `impl From<io::Error> for TransportError`: timeouts stay timeouts;
permission loss and every other kind classify as a disconnect. -/
def TransportError.fromIO : IOErrorKind → TransportError
  | .TimedOut => .TimedOut
  | .PermissionDenied => .SerialPortDisconnected
  | .OtherError => .SerialPortDisconnected

/-- `PacketReadError` of the serial worker's error module. -/
inductive PacketReadError where
  | PoorLayout (sectionIndex : Nat) (packet : List Nat)
  | BadPacketLength (expected : Option Nat) (got : Nat)
  | MetricValue (e : MetricValueError)
  | Transport (e : TransportError)
deriving DecidableEq, Repr

/-- `Metric` of `crates/metric/src/lib.rs`; the `Timestamp` newtype over
`u32` is carried as its `Nat` value. -/
structure Metric where
  timestamp : Nat
  name : MetricName
  value : MetricValue
deriving DecidableEq, Repr

/-- The outcome of one `read_packet` call on an unstuffed frame: a
metric, a recoverable error, or a thread panic (an out-of-bounds
`split_at`). -/
inductive ParseOutcome where
  | ok (m : Metric)
  | err (e : PacketReadError)
  | panicked
deriving DecidableEq, Repr

/-- `slice::splitn(n, |&b| b == 0x00)` restricted to the first split:
the bytes before the first zero and the bytes after it, or `none` if the
slice holds no zero. -/
def splitOnceAtZero : List Nat → Option (List Nat × List Nat)
  | [] => none
  | b :: rest =>
    if b = 0 then some ([], rest)
    else (splitOnceAtZero rest).map (fun pq => (b :: pq.1, pq.2))

/-- `slice::splitn(n, |&b| b == 0x00)` as a list of sections: at most `n`
pieces, the last piece left unsplit. -/
def splitnZero : Nat → List Nat → List (List Nat)
  | 0, _ => []
  | 1, l => [l]
  | n + 2, l =>
    match splitOnceAtZero l with
    | none => [l]
    | some (p, q) => p :: splitnZero (n + 1) q

/-- The declared-length validation block of `read_packet`: split the
frame before its last 2 bytes, read those 2 bytes as a little-endian
`u16`, subtract 2 saturating, and require the result to equal the body
length. A frame shorter than 2 bytes fails the `[u8; 2]` conversion. -/
def check_length (frame : List Nat) : Except PacketReadError (List Nat) :=
  let packet := frame.take (frame.length - 2)
  let lenBytes := frame.drop (frame.length - 2)
  if lenBytes.length = 2 then
    let expected := fromLeBytes lenBytes - 2
    if expected ≠ packet.length then
      .error (.BadPacketLength (some expected) packet.length)
    else
      .ok packet
  else
    .error (.BadPacketLength none packet.length)

/-- The post-length-check stages of `read_packet`: split off the 4-byte
little-endian timestamp (`split_at(4)` — a panic when the body is
shorter than 4 bytes), split the remainder on NUL into name, type tag
and value bytes, decode the value, parse the name. -/
def parse_body (u : List Nat → String) (packet : List Nat) : ParseOutcome :=
  if packet.length < 4 then .panicked
  else
    let timestamp := fromLeBytes (packet.take 4)
    let rest := packet.drop 4
    match splitnZero 3 rest with
    | metricName :: metricType :: metricBytes :: _ =>
      match MetricValue.from_bytes (u metricType) metricBytes with
      | .error e => .err (.MetricValue e)
      | .ok value => .ok ⟨timestamp, parseMetricName (u metricName), value⟩
    | [_, _] => .err (.PoorLayout 2 rest)
    | [_] => .err (.PoorLayout 1 rest)
    | [] => .err (.PoorLayout 0 rest)

/-- `SerialWorker::read_packet` on an unstuffed frame. -/
def read_packet (u : List Nat → String) (frame : List Nat) : ParseOutcome :=
  match check_length frame with
  | .error e => .err e
  | .ok packet => parse_body u packet

theorem check_length_mismatch (frame : List Nat) (h : 2 ≤ frame.length)
    (hx : fromLeBytes (frame.drop (frame.length - 2)) - 2 ≠ frame.length - 2) :
    check_length frame =
      .error (.BadPacketLength (some (fromLeBytes (frame.drop (frame.length - 2)) - 2))
        (frame.length - 2)) := by
  have hlen : (frame.drop (frame.length - 2)).length = 2 := by
    simp only [List.length_drop]
    omega
  have htake : (frame.take (frame.length - 2)).length = frame.length - 2 := by
    simp only [List.length_take]
    omega
  unfold check_length
  simp only [htake, hlen, if_pos rfl, ne_eq, hx, not_false_eq_true, if_true]

theorem check_length_match (frame : List Nat) (h : 2 ≤ frame.length)
    (hx : fromLeBytes (frame.drop (frame.length - 2)) - 2 = frame.length - 2) :
    check_length frame = .ok (frame.take (frame.length - 2)) := by
  have hlen : (frame.drop (frame.length - 2)).length = 2 := by
    simp only [List.length_drop]
    omega
  have htake : (frame.take (frame.length - 2)).length = frame.length - 2 := by
    simp only [List.length_take]
    omega
  unfold check_length
  simp only [htake, hlen, if_pos rfl, ne_eq, hx, not_true_eq_false, if_false, if_true]

/-- C2: on every unstuffed frame of at least 2 bytes, the parser reads
the last 2 bytes as a little-endian `u16`, computes
`expected = declared - 2` saturating, errors with
`BadPacketLength{expected, got: body.len()}` exactly when `expected`
differs from the body length, and otherwise proceeds to parse that body. -/
theorem packet_length_check (u : List Nat → String) (frame : List Nat)
    (h : 2 ≤ frame.length) :
    (fromLeBytes (frame.drop (frame.length - 2)) - 2 ≠ frame.length - 2 →
      read_packet u frame =
        .err (.BadPacketLength
          (some (fromLeBytes (frame.drop (frame.length - 2)) - 2)) (frame.length - 2)))
    ∧ (fromLeBytes (frame.drop (frame.length - 2)) - 2 = frame.length - 2 →
      read_packet u frame = parse_body u (frame.take (frame.length - 2))) := by
  constructor
  · intro hx
    unfold read_packet
    rw [check_length_mismatch frame h hx]
  · intro hx
    unfold read_packet
    rw [check_length_match frame h hx]

/-- Witness for C2 at the frame `[1, 2, 3, 9, 0]`: declared length 9,
expected 7, body length 3. -/
theorem packet_length_check_witness :
    2 ≤ ([1, 2, 3, 9, 0] : List Nat).length
    ∧ read_packet (fun _ => "") [1, 2, 3, 9, 0] = .err (.BadPacketLength (some 7) 3) :=
  ⟨by decide,
    (packet_length_check (fun _ => "") [1, 2, 3, 9, 0] (by decide)).1 (by decide)⟩

/-- C7 counterexample: a frame whose trailing 2 bytes declare length 10
and whose body is 8 bytes long is *consistent* (`expected = 10 - 2 = 8 =
body.len()`): the parser does not return `BadPacketLength` — on this
concrete frame it parses clean through to an `Unknown`-typed metric. -/
theorem declared_ten_body_eight_parses :
    check_length [0, 0, 0, 0, 0, 0, 0, 0, 10, 0] = .ok [0, 0, 0, 0, 0, 0, 0, 0]
    ∧ read_packet (fun _ => "") [0, 0, 0, 0, 0, 0, 0, 0, 10, 0] =
      .ok ⟨0, .Name "", .Unknown "" [0, 0]⟩ := by
  exact ⟨rfl, by decide⟩

/-- C7 amended: a frame whose trailing 2 bytes declare length 10 but
whose body length differs from 8 yields `BadPacketLength` with
`expected = 8` (declared − 2) and `got` the body length; a body of
exactly 8 bytes passes the declared-length check. -/
theorem declared_ten_mismatch (u : List Nat → String) (frame : List Nat)
    (h : 2 ≤ frame.length)
    (hdecl : fromLeBytes (frame.drop (frame.length - 2)) = 10)
    (hbody : frame.length - 2 ≠ 8) :
    read_packet u frame = .err (.BadPacketLength (some 8) (frame.length - 2)) := by
  have hx : fromLeBytes (frame.drop (frame.length - 2)) - 2 ≠ frame.length - 2 := by
    rw [hdecl]
    omega
  unfold read_packet
  rw [check_length_mismatch frame h hx, hdecl]

/-- Witness for the amended C7 at a 9-byte frame (7-byte body, declared
length 10). -/
theorem declared_ten_mismatch_witness :
    2 ≤ ([0, 0, 0, 0, 0, 0, 0, 10, 0] : List Nat).length
    ∧ fromLeBytes ([0, 0, 0, 0, 0, 0, 0, 10, 0].drop 7) = 10
    ∧ read_packet (fun _ => "") [0, 0, 0, 0, 0, 0, 0, 10, 0] =
        .err (.BadPacketLength (some 8) 7) :=
  ⟨by decide, by decide,
    declared_ten_mismatch (fun _ => "") [0, 0, 0, 0, 0, 0, 0, 10, 0]
      (by decide) (by decide) (by decide)⟩

/-- C4 (code bug): on any frame whose declared-length check passes but
whose body is shorter than the 4-byte timestamp, `read_packet` panics in
`packet.split_at(4)` instead of returning an error — contradicting the
code's own comment (`// Should never panic since packet length has been
verified`) and the spec's no-crash propagation policy. -/
theorem read_packet_short_body_panics (u : List Nat → String) (frame : List Nat)
    (hok : check_length frame = .ok (frame.take (frame.length - 2)))
    (hshort : frame.length - 2 < 4) :
    read_packet u frame = .panicked := by
  unfold read_packet
  rw [hok]
  show parse_body u (frame.take (frame.length - 2)) = .panicked
  unfold parse_body
  rw [if_pos (by simp only [List.length_take]; omega)]

/-- Witness for C4 at the 2-byte frame `[0x02, 0x00]`: declared length 2,
expected body length 0, empty body — the check passes and the parse
panics. -/
theorem read_packet_short_body_panics_witness :
    check_length [2, 0] = .ok []
    ∧ ([2, 0] : List Nat).length - 2 < 4
    ∧ read_packet (fun _ => "") [2, 0] = .panicked :=
  ⟨rfl, by decide, read_packet_short_body_panics (fun _ => "") [2, 0] rfl (by decide)⟩

/-! ## Worker state machine (`crates/serial/src/lib.rs`, `SerialWorker::spawn`)

The unbounded worker loop drains queued commands, then performs one read
(when a transport is held) or one connection attempt (when not). The
loop's effect on the observable state — the published `SerialWorkerState`
and whether the `opt_reader` transport handle is held — is modelled as a
step function over the events one iteration can process. -/

/-- `RobotCommand` of `crates/metric/src/lib.rs`. -/
inductive RobotCommand where
  | CalibrateAmbientInfrared
  | CalibrateReferenceInfrared
deriving DecidableEq, Repr

/-- `SerialWorkerCommand` of `crates/serial/src/lib.rs`. -/
inductive SerialWorkerCommand where
  | Detach
  | Attach
  | Reset
  | SendCommand (c : RobotCommand)
deriving DecidableEq, Repr

/-- `SerialWorkerState` of `crates/serial/src/lib.rs`. -/
inductive SerialWorkerState where
  | Resetting
  | Connected
  | Disconnected
  | Detached
deriving DecidableEq, Repr

/-- The worker-loop state observable across iterations: the published
state and whether `opt_reader` currently holds the transport. -/
structure WorkerModel where
  state : SerialWorkerState
  hasReader : Bool
deriving DecidableEq, Repr

/-- One event a loop iteration can process: a drained command, the
result of a `read_packet` call (only when a transport is held), or the
result of a connection attempt (only when none is held). -/
inductive WorkerEvent where
  | cmd (c : SerialWorkerCommand)
  | readEv (r : Except PacketReadError Metric)
  | openOk
  | openNoDevice
deriving Repr

/-- The command match of the worker loop. `Detach` releases the reader
(`opt_reader.take()`), publishes `Detached`, and blocks in an inner loop
that ignores every command until `Attach`, which publishes
`Disconnected`; `Attach` outside that inner loop only warns; `Reset`
performs the DTR pulse while connected (transiently publishing
`Resetting`, then `Connected` again — net unchanged) and warns
otherwise; `SendCommand` writes a byte without touching the state. -/
def stepCommand (s : WorkerModel) : SerialWorkerCommand → WorkerModel
  | .Detach => { state := .Detached, hasReader := false }
  | .Attach => if s.state = .Detached then { state := .Disconnected, hasReader := false } else s
  | .Reset => s
  | .SendCommand _ => s

/-- The read match of the worker loop: a timeout does nothing; a
disconnect drops the reader and publishes `Disconnected`; malformed COBS
data, value-length, packet-length and layout errors are logged and
skipped; a decoded metric is forwarded. None of these change the state
except the disconnect. -/
def stepRead (s : WorkerModel) (r : Except PacketReadError Metric) : WorkerModel :=
  match r with
  | .error (.Transport .SerialPortDisconnected) => { state := .Disconnected, hasReader := false }
  | _ => s

/-- One observable step of the worker loop. -/
def workerStep (s : WorkerModel) : WorkerEvent → WorkerModel
  | .cmd c => stepCommand s c
  | .readEv r => if s.hasReader then stepRead s r else s
  | .openOk => if s.hasReader then s else { state := .Connected, hasReader := true }
  | .openNoDevice => s

/-- C5: the worker state machine — a successful open in `Disconnected`
yields `Connected`; a read error classified as a disconnect (permission
lost classifies as `SerialPortDisconnected`) takes `Connected` to
`Disconnected` and releases the transport; `Detach` from any state yields
`Detached` and releases the transport; while `Detached` every command
other than `Attach` leaves the state `Detached`; `Attach` in `Detached`
yields `Disconnected`; a read timeout leaves `Connected` unchanged. -/
theorem worker_state_machine (s : WorkerModel) (c : SerialWorkerCommand)
    (hc : c ≠ .Attach) :
    workerStep ⟨.Disconnected, false⟩ .openOk = ⟨.Connected, true⟩
    ∧ TransportError.fromIO .PermissionDenied = .SerialPortDisconnected
    ∧ workerStep ⟨.Connected, true⟩
        (.readEv (.error (.Transport (TransportError.fromIO .PermissionDenied)))) =
      ⟨.Disconnected, false⟩
    ∧ workerStep s (.cmd .Detach) = ⟨.Detached, false⟩
    ∧ workerStep ⟨.Detached, false⟩ (.cmd c) = ⟨.Detached, false⟩
    ∧ workerStep ⟨.Detached, false⟩ (.cmd .Attach) = ⟨.Disconnected, false⟩
    ∧ workerStep ⟨.Connected, true⟩ (.readEv (.error (.Transport .TimedOut))) =
      ⟨.Connected, true⟩ := by
  refine ⟨rfl, rfl, rfl, rfl, ?_, rfl, rfl⟩
  cases c with
  | Detach => rfl
  | Attach => exact absurd rfl hc
  | Reset => rfl
  | SendCommand rc => rfl

/-- Witness for C5 at `s = ⟨Connected, true⟩`, `c = Reset`. -/
theorem worker_state_machine_witness :
    (SerialWorkerCommand.Reset ≠ .Attach)
    ∧ workerStep ⟨.Detached, false⟩ (.cmd .Reset) = ⟨.Detached, false⟩
    ∧ workerStep ⟨.Connected, true⟩ (.cmd .Detach) = ⟨.Detached, false⟩ :=
  ⟨by decide,
    (worker_state_machine ⟨.Connected, true⟩ .Reset (by decide)).2.2.2.2.1,
    (worker_state_machine ⟨.Connected, true⟩ .Reset (by decide)).2.2.2.1⟩
